import Mathlib

/-!
Shallow embedding of the expense-tracker server (`src/main.py`).

The SQLite tables `users` and `expenses` are modelled as lists of records
inside a `DB` state; `AUTOINCREMENT` on `expenses.id` is modelled by the
`nextExpenseId` counter.  Monetary amounts (`REAL` in the schema) are
modelled as exact rationals.  Dates are `TEXT` in the schema and SQLite's
`BETWEEN` compares them with the binary collation, i.e. lexicographically,
which is the `String` order used here.  Randomness (`secrets.token_hex`,
`secrets.token_urlsafe`), clock reads (`datetime.now()`) and the PBKDF2
key-derivation function `_hash_password` are inputs of the environment and
are passed to each operation as explicit arguments.  A tool either returns
a structured payload (`ToolResult.ok`) or lets a Python exception escape
(`ToolResult.raised`), which is how `_authenticate`'s `ValueError`s leave
the four ledger tools that call it outside their `try` blocks.
-/

/-- Row of the `expenses` table. -/
structure Expense where
  id : Nat
  user_id : String
  date : String
  amount : Rat
  category : String
  subcategory : String
  note : String
deriving DecidableEq

/-- Row of the `users` table. -/
structure User where
  user_id : String
  api_key : String
  email : String
  name : String
  password_hash : String
  salt : String
  registered_at : String
  api_key_regen_at : Option String
deriving DecidableEq

/-- State of the SQLite database at `DB_PATH`. -/
structure DB where
  users : List User
  expenses : List Expense
  nextExpenseId : Nat
deriving DecidableEq

/-- Outcome of one tool invocation: a returned payload, or an exception that
propagated out of the tool function uncaught. -/
inductive ToolResult (α : Type) where
  | raised (message : String)
  | ok (value : α)
deriving DecidableEq

/-- Character-wise lowercasing, the model of both Python's `str.lower()` and
SQLite's `LOWER()` (the inputs of interest are ASCII). -/
def lowerStr (s : String) : String := ⟨s.data.map Char.toLower⟩

/-- Lexicographic strict order on character lists: the binary (memcmp)
collation SQLite applies to `TEXT` values such as the `date` column. -/
def charListLt : List Char → List Char → Bool
  | [], [] => false
  | [], _ :: _ => true
  | _ :: _, [] => false
  | a :: as, b :: bs => decide (a < b) || (a == b && charListLt as bs)

/-- Strict `TEXT` comparison of two strings under the binary collation. -/
def strLtB (a b : String) : Bool := charListLt a.data b.data

/-- Non-strict `TEXT` comparison, as used by `date BETWEEN ? AND ?`. -/
def strLeB (a b : String) : Bool := strLtB a b || a == b

/-- Model of `_authenticate` (src/main.py lines 89-100): empty key and
unknown key raise `ValueError` with distinct messages; otherwise the
matching row's `user_id` is returned. -/
def authenticate (st : DB) (api_key : String) : Except String String :=
  if api_key = "" then .error "API key is required"
  else
    match st.users.find? (fun u => u.api_key == api_key) with
    | some u => .ok u.user_id
    | none => .error "Invalid API key"

/-- The characters of `email.split("@")[-1]`: for the single-character
separator `"@"`, Python's last split segment is the maximal suffix that
contains no `'@'` (the whole string when no `'@'` occurs). -/
def afterLastAt (email : String) : List Char :=
  (email.data.reverse.takeWhile (fun c => c != '@')).reverse

/-- The email sanity check of `register_user` (src/main.py line 121):
`"@" in email` and `"." in email.split("@")[-1]`. -/
def emailFormatOk (email : String) : Bool :=
  email.data.contains '@' && (afterLastAt email).contains '.'

/-- Response of `register_user`. -/
inductive RegisterResp where
  | error (message : String)
  | success (api_key user_id name email : String)
deriving DecidableEq

/-- Tests whether a `register_user` response has `"status": "success"`. -/
def RegisterResp.isSuccess : RegisterResp → Bool
  | .success _ _ _ _ => true
  | .error _ => false

/-- Model of the tool `register_user` (src/main.py lines 107-161).  The
generated `user_id`, `api_key`, `salt` and the clock value are explicit
arguments, as is the PBKDF2 derivation `_hash_password`. -/
def register_user (st : DB) (email name password : String)
    (freshUserId freshApiKey freshSalt now : String)
    (hashPassword : String → String → String) : RegisterResp × DB :=
  if !(emailFormatOk email) then
    (.error "Invalid email format.", st)
  else if st.users.any (fun u => lowerStr u.email == lowerStr email) then
    (.error "This email is already registered. Use regenerate_api_key if you lost your key.", st)
  else
    let u : User :=
      ⟨freshUserId, freshApiKey, lowerStr email, name,
       hashPassword password freshSalt, freshSalt, now, none⟩
    (.success freshApiKey freshUserId name (lowerStr email),
     { st with users := st.users ++ [u] })

/-- Response of `regenerate_api_key`. -/
inductive RegenResp where
  | error (message : String)
  | success (api_key user_id : String)
deriving DecidableEq

/-- Model of the tool `regenerate_api_key` (src/main.py lines 165-205). -/
def regenerate_api_key (st : DB) (email password : String) (newKey now : String)
    (hashPassword : String → String → String) : RegenResp × DB :=
  match st.users.find? (fun u => lowerStr u.email == lowerStr email) with
  | none => (.error "Email not found.", st)
  | some u =>
    if hashPassword password u.salt != u.password_hash then
      (.error "Incorrect password.", st)
    else
      (.success newKey u.user_id,
       { st with users := st.users.map (fun v =>
           if v.user_id == u.user_id then
             { v with api_key := newKey, api_key_regen_at := some now }
           else v) })

/-- Response of `add_expense` on the success path. -/
structure AddResp where
  id : Nat
  message : String
deriving DecidableEq

/-- Model of the tool `add_expense` (src/main.py lines 209-238).
`_authenticate` is called outside the `try` block, so its `ValueError`
propagates as `ToolResult.raised`. -/
def add_expense (st : DB) (date : String) (amount : Rat)
    (category api_key subcategory note : String) : ToolResult (AddResp × DB) :=
  match authenticate st api_key with
  | .error m => .raised m
  | .ok uid =>
    let e : Expense := ⟨st.nextExpenseId, uid, date, amount, category, subcategory, note⟩
    .ok (⟨st.nextExpenseId, "Expense added."⟩,
         { st with expenses := st.expenses ++ [e], nextExpenseId := st.nextExpenseId + 1 })

/-- Rows selected by `WHERE user_id = ? AND date BETWEEN ? AND ?`. -/
def rangeRows (st : DB) (uid start_date end_date : String) : List Expense :=
  st.expenses.filter (fun x =>
    x.user_id == uid && strLeB start_date x.date && strLeB x.date end_date)

/-- Non-strict sort key of `ORDER BY date DESC, id DESC`: `a` sorts at or
below `b` when `a`'s (date, id) is lexicographically at most `b`'s. -/
def sortKeyLe (a b : Expense) : Prop :=
  strLtB a.date b.date = true ∨ (a.date = b.date ∧ a.id ≤ b.id)

/-- Output order of `ORDER BY date DESC, id DESC`: `a` may precede `b`. -/
def newestFirst (a b : Expense) : Prop := sortKeyLe b a

instance : DecidableRel sortKeyLe := fun a b =>
  inferInstanceAs (Decidable (strLtB a.date b.date = true ∨ (a.date = b.date ∧ a.id ≤ b.id)))

instance : DecidableRel newestFirst := fun a b =>
  inferInstanceAs (Decidable (sortKeyLe b a))

/-- Sorting performed by `ORDER BY date DESC, id DESC`. -/
def sortRows (l : List Expense) : List Expense := l.insertionSort newestFirst

/-- Response of `list_expenses` on the success path. -/
structure ListResp where
  count : Nat
  expenses : List Expense
deriving DecidableEq

/-- Model of the tool `list_expenses` (src/main.py lines 241-263).
`_authenticate` is called outside the `try` block. -/
def list_expenses (st : DB) (start_date end_date api_key : String) : ToolResult ListResp :=
  match authenticate st api_key with
  | .error m => .raised m
  | .ok uid =>
    let rows := sortRows (rangeRows st uid start_date end_date)
    .ok ⟨rows.length, rows⟩

/-- Rows grouped by `summarize`'s query: the range rows, further filtered by
category exactly when the Python value `category` is truthy (`if category:`),
i.e. neither `None` nor the empty string. -/
def summarizeRows (st : DB) (uid start_date end_date : String)
    (category : Option String) : List Expense :=
  match category with
  | none => rangeRows st uid start_date end_date
  | some c =>
    if c = "" then rangeRows st uid start_date end_date
    else (rangeRows st uid start_date end_date).filter (fun x => x.category == c)

/-- One row of `GROUP BY category`: category, `SUM(amount)`, `COUNT(*)`. -/
structure CatGroup where
  category : String
  total_amount : Rat
  count : Nat
deriving DecidableEq

/-- The distinct categories occurring among the matching rows. -/
def distinctCats (rows : List Expense) : List String :=
  (rows.map (fun x => x.category)).dedup

/-- The `GROUP BY` aggregate for one category value. -/
def groupFor (rows : List Expense) (c : String) : CatGroup :=
  ⟨c, ((rows.filter (fun x => x.category == c)).map (fun x => x.amount)).sum,
   (rows.filter (fun x => x.category == c)).length⟩

/-- Output order of `ORDER BY total_amount DESC`: `g` may precede `h`. -/
def totalDesc (g h : CatGroup) : Prop := h.total_amount ≤ g.total_amount

instance : DecidableRel totalDesc := fun g h =>
  inferInstanceAs (Decidable (h.total_amount ≤ g.total_amount))

/-- The `GROUP BY category ORDER BY total_amount DESC` result rows. -/
def summaryOf (rows : List Expense) : List CatGroup :=
  ((distinctCats rows).map (groupFor rows)).insertionSort totalDesc

/-- Response of `summarize` on the success path: the Python layer computes
`total_amount` as the sum of the groups' `total_amount` values. -/
structure SummResp where
  total_amount : Rat
  summary : List CatGroup
deriving DecidableEq

/-- Model of the tool `summarize` (src/main.py lines 266-301).
`_authenticate` is called outside the `try` block. -/
def summarize (st : DB) (start_date end_date api_key : String)
    (category : Option String) : ToolResult SummResp :=
  match authenticate st api_key with
  | .error m => .raised m
  | .ok uid =>
    let groups := summaryOf (summarizeRows st uid start_date end_date category)
    .ok ⟨(groups.map (fun g => g.total_amount)).sum, groups⟩

/-- Response of `delete_expense`. -/
inductive DeleteResp where
  | error (message : String)
  | success (message : String)
deriving DecidableEq

/-- Model of the tool `delete_expense` (src/main.py lines 304-328): an
ownership-and-existence check, then `DELETE ... WHERE id = ? AND user_id = ?`.
`_authenticate` is called outside the `try` block. -/
def delete_expense (st : DB) (expense_id : Nat) (api_key : String) :
    ToolResult (DeleteResp × DB) :=
  match authenticate st api_key with
  | .error m => .raised m
  | .ok uid =>
    if st.expenses.any (fun x => x.id == expense_id && x.user_id == uid) then
      .ok (.success ("Expense " ++ toString expense_id ++ " deleted."),
           { st with expenses :=
               st.expenses.filter (fun x => !(x.id == expense_id && x.user_id == uid)) })
    else
      .ok (.error "Expense not found or not yours.", st)

/-! Helper lemmas about the binary collation order. -/

/-- Strings with equal character data are equal. -/
theorem strEq_of_data {a b : String} (h : a.data = b.data) : a = b := by
  cases a; cases b; exact congrArg String.mk h

theorem charListLt_irrefl : ∀ l : List Char, charListLt l l = false
  | [] => rfl
  | a :: as => by
    simp [charListLt, charListLt_irrefl as]

theorem charListLt_trans {a b c : List Char} (h1 : charListLt a b = true)
    (h2 : charListLt b c = true) : charListLt a c = true := by
  induction a generalizing b c with
  | nil =>
    cases c with
    | nil =>
      cases b with
      | nil => simp [charListLt] at h1
      | cons y ys => simp [charListLt] at h2
    | cons z zs => rfl
  | cons x xs ih =>
    cases b with
    | nil => simp [charListLt] at h1
    | cons y ys =>
      cases c with
      | nil => simp [charListLt] at h2
      | cons z zs =>
        simp only [charListLt, Bool.or_eq_true, Bool.and_eq_true, decide_eq_true_eq,
          beq_iff_eq] at h1 h2 ⊢
        rcases h1 with h1 | ⟨hxy, h1⟩
        · rcases h2 with h2 | ⟨hyz, h2⟩
          · exact Or.inl (lt_trans h1 h2)
          · exact Or.inl (hyz ▸ h1)
        · rcases h2 with h2 | ⟨hyz, h2⟩
          · exact Or.inl (hxy ▸ h2)
          · exact Or.inr ⟨hxy.trans hyz, ih h1 h2⟩

theorem charListLt_trichotomy : ∀ a b : List Char,
    charListLt a b = true ∨ a = b ∨ charListLt b a = true
  | [], [] => Or.inr (Or.inl rfl)
  | [], _ :: _ => Or.inl rfl
  | _ :: _, [] => Or.inr (Or.inr rfl)
  | x :: xs, y :: ys => by
    rcases lt_trichotomy x y with h | h | h
    · exact Or.inl (by simp [charListLt, h])
    · subst h
      rcases charListLt_trichotomy xs ys with h2 | h2 | h2
      · exact Or.inl (by simp [charListLt, h2])
      · exact Or.inr (Or.inl (by rw [h2]))
      · exact Or.inr (Or.inr (by simp [charListLt, h2]))
    · exact Or.inr (Or.inr (by simp [charListLt, h]))

theorem strLtB_trans {a b c : String} (h1 : strLtB a b = true) (h2 : strLtB b c = true) :
    strLtB a c = true := charListLt_trans h1 h2

theorem strLtB_irrefl (s : String) : strLtB s s = false := charListLt_irrefl _

theorem strLtB_trichotomy (a b : String) :
    strLtB a b = true ∨ a = b ∨ strLtB b a = true := by
  rcases charListLt_trichotomy a.data b.data with h | h | h
  · exact Or.inl h
  · exact Or.inr (Or.inl (strEq_of_data h))
  · exact Or.inr (Or.inr h)

theorem strLeB_iff {a b : String} : strLeB a b = true ↔ strLtB a b = true ∨ a = b := by
  simp [strLeB, Bool.or_eq_true, beq_iff_eq]

theorem strLeB_trans {a b c : String} (h1 : strLeB a b = true) (h2 : strLeB b c = true) :
    strLeB a c = true := by
  rcases strLeB_iff.mp h1 with h1 | rfl
  · rcases strLeB_iff.mp h2 with h2 | rfl
    · exact strLeB_iff.mpr (Or.inl (strLtB_trans h1 h2))
    · exact strLeB_iff.mpr (Or.inl h1)
  · exact h2

theorem strLeB_of_strLtB {a b : String} (h : strLtB a b = true) : strLeB a b = true :=
  strLeB_iff.mpr (Or.inl h)

theorem not_strLeB_of_strLtB {a b : String} (h : strLtB b a = true) : strLeB a b = false := by
  cases heq : strLeB a b with
  | false => rfl
  | true =>
    exfalso
    rcases strLeB_iff.mp heq with h2 | rfl
    · have := strLtB_trans h2 h
      rw [strLtB_irrefl] at this
      exact Bool.false_ne_true this
    · rw [strLtB_irrefl] at h
      exact Bool.false_ne_true h

theorem sortKeyLe_trans {a b c : Expense} (h1 : sortKeyLe a b) (h2 : sortKeyLe b c) :
    sortKeyLe a c := by
  rcases h1 with h1 | ⟨he1, hi1⟩
  · rcases h2 with h2 | ⟨he2, hi2⟩
    · exact Or.inl (strLtB_trans h1 h2)
    · exact Or.inl (he2 ▸ h1)
  · rcases h2 with h2 | ⟨he2, hi2⟩
    · exact Or.inl (he1 ▸ h2)
    · exact Or.inr ⟨he1.trans he2, le_trans hi1 hi2⟩

theorem sortKeyLe_total (a b : Expense) : sortKeyLe a b ∨ sortKeyLe b a := by
  rcases strLtB_trichotomy a.date b.date with h | h | h
  · exact Or.inl (Or.inl h)
  · rcases Nat.le_total a.id b.id with h2 | h2
    · exact Or.inl (Or.inr ⟨h, h2⟩)
    · exact Or.inr (Or.inr ⟨h.symm, h2⟩)
  · exact Or.inr (Or.inl h)

instance : IsTrans Expense newestFirst :=
  ⟨fun _ _ _ h1 h2 => sortKeyLe_trans h2 h1⟩

instance : IsTotal Expense newestFirst :=
  ⟨fun a b => sortKeyLe_total b a⟩

instance : IsTrans CatGroup totalDesc :=
  ⟨fun _ _ _ h1 h2 => le_trans h2 h1⟩

instance : IsTotal CatGroup totalDesc :=
  ⟨fun g h => (le_total h.total_amount g.total_amount).imp id id⟩

/-! Lowercasing is idempotent, which connects the `email.lower()` value that
`register_user` stores with the `LOWER(email)` comparison of later lookups. -/

theorem char_toNat_ofNat_valid (n : Nat) (h : n.isValidChar) : (Char.ofNat n).toNat = n := by
  rw [Char.ofNat, dif_pos h]
  rfl

theorem char_toLower_toLower (c : Char) : c.toLower.toLower = c.toLower := by
  unfold Char.toLower
  by_cases h : c.toNat ≥ 65 ∧ c.toNat ≤ 90
  · rw [if_pos h]
    have hv : (c.toNat + 32).isValidChar := Or.inl (by omega)
    rw [char_toNat_ofNat_valid _ hv, if_neg (by omega)]
  · rw [if_neg h, if_neg h]

theorem lowerStr_idem (s : String) : lowerStr (lowerStr s) = lowerStr s := by
  show String.mk ((s.data.map Char.toLower).map Char.toLower) = String.mk (s.data.map Char.toLower)
  rw [List.map_map]
  exact congrArg String.mk (List.map_congr_left (fun c _ => char_toLower_toLower c))

/-! Helpers about `find?`, which models `SELECT ... WHERE ... LIMIT`-style
row lookups. -/

theorem find?_eq_of_unique {α : Type} {p : α → Bool} {u : α} :
    ∀ {l : List α}, u ∈ l → p u = true → (∀ x ∈ l, p x = true → x = u) →
      l.find? p = some u := by
  intro l
  induction l with
  | nil => intro h; cases h
  | cons a l ih =>
    intro hu hpu huniq
    by_cases ha : p a = true
    · have hau : a = u := huniq a (List.mem_cons_self a l) ha
      subst hau
      rw [List.find?_cons_of_pos _ ha]
    · rw [List.find?_cons_of_neg _ (by simpa using ha)]
      have hau : a ≠ u := fun h => ha (h ▸ hpu)
      rcases List.mem_cons.mp hu with h | h
      · exact absurd h.symm hau
      · exact ih h hpu (fun x hx hpx => huniq x (List.mem_cons_of_mem a hx) hpx)

/-! Sums split along a Boolean filter, and a partition of a sum over
distinct category values: the arithmetic core of `summarize`. -/

theorem sum_map_filter_add {α : Type} (p : α → Bool) (f : α → Rat) :
    ∀ l : List α,
      ((l.filter p).map f).sum + ((l.filter (fun a => !(p a))).map f).sum = (l.map f).sum := by
  intro l
  induction l with
  | nil => simp
  | cons a l ih =>
    by_cases h : p a = true
    · rw [List.filter_cons, List.filter_cons, if_pos h, if_neg (by simp [h]), List.map_cons,
        List.sum_cons, List.map_cons, List.sum_cons, add_assoc, ih]
    · have h' : p a = false := by simpa using h
      rw [List.filter_cons, List.filter_cons, if_neg (by simp [h']), if_pos (by simp [h']),
        List.map_cons, List.sum_cons, List.map_cons, List.sum_cons, add_left_comm, ih]

theorem sum_over_cats :
    ∀ cats : List String, cats.Nodup →
      ∀ rows : List Expense, (∀ x ∈ rows, x.category ∈ cats) →
        (cats.map (fun c =>
          ((rows.filter (fun x => x.category == c)).map (fun x => x.amount)).sum)).sum
          = (rows.map (fun x => x.amount)).sum := by
  intro cats
  induction cats with
  | nil =>
    intro _ rows hcov
    cases rows with
    | nil => simp
    | cons x xs => exact absurd (hcov x (List.mem_cons_self x xs)) (List.not_mem_nil _)
  | cons c cs ih =>
    intro hnd rows hcov
    have hc : c ∉ cs := (List.nodup_cons.mp hnd).1
    have hnd' : cs.Nodup := (List.nodup_cons.mp hnd).2
    have hcov' : ∀ x ∈ rows.filter (fun x => !(x.category == c)), x.category ∈ cs := by
      intro x hx
      have hmem := List.mem_filter.mp hx
      rcases List.mem_cons.mp (hcov x hmem.1) with h | h
      · exfalso
        have := hmem.2
        simp [h] at this
      · exact h
    have key : ∀ c' ∈ cs,
        rows.filter (fun x => x.category == c')
          = (rows.filter (fun x => !(x.category == c))).filter (fun x => x.category == c') := by
      intro c' hc'
      rw [List.filter_filter]
      apply List.filter_congr
      intro x _
      cases hx : x.category == c' with
      | false => simp
      | true =>
        have hxc : x.category = c' := by simpa using hx
        have : (x.category == c) = false := by
          simp only [beq_eq_false_iff_ne, ne_eq, hxc]
          intro hcc
          exact hc (hcc ▸ hc')
        simp [this]
    have hmap :
        (cs.map (fun c' =>
          ((rows.filter (fun x => x.category == c')).map (fun x => x.amount)).sum))
        = (cs.map (fun c' =>
          (((rows.filter (fun x => !(x.category == c))).filter
              (fun x => x.category == c')).map (fun x => x.amount)).sum)) :=
      List.map_congr_left (fun c' hc' => by rw [key c' hc'])
    simp only [List.map_cons, List.sum_cons]
    rw [hmap, ih hnd' _ hcov',
      ← sum_map_filter_add (fun x => x.category == c) (fun x => x.amount) rows]

/-! Shared definitions for the claim statements. -/

/-- Strict output order of `list_expenses`: `a` comes before `b` exactly when
`a` has the later date, or the same date and the larger `expense_id`. -/
def listedBefore (a b : Expense) : Prop :=
  strLtB b.date a.date = true ∨ (a.date = b.date ∧ b.id < a.id)

/-- Concrete stand-in for the PBKDF2 derivation, used to instantiate the
`hashPassword` parameter in closed statements. -/
def concatHash (password salt : String) : String := password ++ salt

/-- Tests whether a tool invocation returned a structured payload rather than
letting an exception propagate. -/
def ToolResult.isStructured {α : Type} : ToolResult α → Bool
  | .ok _ => true
  | .raised _ => false

/-- A tool outcome permitted by the (amended) propagation policy: either a
structured payload, or the propagated `_authenticate` exception. -/
def structuredOrAuthRaised {α : Type} (st : DB) (key : String) (t : ToolResult α) : Prop :=
  t.isStructured = true ∨ ∃ m, authenticate st key = Except.error m ∧ t = ToolResult.raised m

theorem mem_rangeRows {st : DB} {uid start_date end_date : String} {x : Expense} :
    x ∈ rangeRows st uid start_date end_date
      ↔ x ∈ st.expenses ∧ x.user_id = uid ∧ strLeB start_date x.date = true
          ∧ strLeB x.date end_date = true := by
  simp [rangeRows, List.mem_filter, Bool.and_eq_true, beq_iff_eq, and_assoc]

theorem mem_sortRows {l : List Expense} {x : Expense} : x ∈ sortRows l ↔ x ∈ l :=
  (List.perm_insertionSort newestFirst l).mem_iff

/-- C8: for every account and every pair of dates with `start_date` greater
than `end_date` (in the collation SQLite applies to the `date` column),
`list_expenses` returns a successful result with an empty expense sequence
and count 0, not an error. -/
theorem list_expenses_inverted_range_empty (st : DB) (key uid start_date end_date : String)
    (hauth : authenticate st key = Except.ok uid)
    (hgt : strLtB end_date start_date = true) :
    list_expenses st start_date end_date key = ToolResult.ok ⟨0, []⟩ := by
  have hnil : rangeRows st uid start_date end_date = [] := by
    rw [rangeRows, List.filter_eq_nil_iff]
    intro x _ hcontra
    simp only [Bool.and_eq_true] at hcontra
    have hse : strLeB start_date end_date = true := strLeB_trans hcontra.1.2 hcontra.2
    rw [not_strLeB_of_strLtB hgt] at hse
    exact Bool.false_ne_true hse
  simp [list_expenses, hauth, hnil, sortRows, List.insertionSort]

/-- Witness for `list_expenses_inverted_range_empty` at a concrete state. -/
theorem list_expenses_inverted_range_empty_witness :
    list_expenses ⟨[⟨"u1", "k1", "a@b.co", "n", "h", "s", "t", none⟩], [], 1⟩
        "2024-02-01" "2024-01-01" "k1" = ToolResult.ok ⟨0, []⟩ :=
  list_expenses_inverted_range_empty
    ⟨[⟨"u1", "k1", "a@b.co", "n", "h", "s", "t", none⟩], [], 1⟩
    "k1" "u1" "2024-02-01" "2024-01-01" rfl (by decide)

/-- C4 counterexample: `list_expenses` invoked with an unknown `api_key`
does not return a structured error result; the `ValueError` raised by
`_authenticate` propagates out of the tool uncaught. -/
theorem list_expenses_bad_key_raises :
    list_expenses ⟨[], [], 1⟩ "2024-01-01" "2024-12-31" "no-such-key"
      = ToolResult.raised "Invalid API key" := rfl

/-- C4 amended: each ledger tool either returns a structured payload or, when
`_authenticate` fails (missing or unknown key), lets that exception propagate
with the authentication error message; failures after authentication are
caught and returned as structured results. -/
theorem tools_structured_or_auth_raised (st : DB)
    (date start_date end_date category subcategory note key : String)
    (amount : Rat) (expense_id : Nat) (cat : Option String) :
    structuredOrAuthRaised st key (add_expense st date amount category key subcategory note) ∧
    structuredOrAuthRaised st key (list_expenses st start_date end_date key) ∧
    structuredOrAuthRaised st key (summarize st start_date end_date key cat) ∧
    structuredOrAuthRaised st key (delete_expense st expense_id key) := by
  cases hauth : authenticate st key with
  | error m =>
    refine ⟨Or.inr ⟨m, hauth, ?_⟩, Or.inr ⟨m, hauth, ?_⟩,
      Or.inr ⟨m, hauth, ?_⟩, Or.inr ⟨m, hauth, ?_⟩⟩ <;>
      simp [add_expense, list_expenses, summarize, delete_expense, hauth]
  | ok uid =>
    refine ⟨Or.inl ?_, Or.inl ?_, Or.inl ?_, Or.inl ?_⟩ <;>
      simp only [add_expense, list_expenses, summarize, delete_expense, hauth] <;>
      first
        | rfl
        | (split <;> rfl)

/-- C10: `summarize` treats an empty-string category filter exactly like no
filter at all (Python's `if category:` is false for both `None` and `""`),
and a non-empty category filter only ever selects rows of that category, so
rows whose category is the empty string can never be isolated by the filter. -/
theorem summarize_empty_category_filter (st : DB) (start_date end_date key uid c : String)
    (x : Expense) (hc : c ≠ "")
    (hx : x ∈ summarizeRows st uid start_date end_date (some c)) :
    summarize st start_date end_date key (some "")
        = summarize st start_date end_date key none
      ∧ x.category ≠ "" := by
  constructor
  · cases hauth : authenticate st key with
    | error m => simp [summarize, hauth]
    | ok uid2 => simp [summarize, hauth, summarizeRows]
  · rw [summarizeRows, if_neg hc] at hx
    have := (List.mem_filter.mp hx).2
    have hxc : x.category = c := by simpa using this
    rw [hxc]
    exact hc

/-- Witness for `summarize_empty_category_filter` at a concrete state with an
empty-category row and a `"Food"` row. -/
theorem summarize_empty_category_filter_witness :
    summarize
        ⟨[⟨"u1", "k1", "a@b.co", "n", "h", "s", "t", none⟩],
         [⟨1, "u1", "2024-01-05", 5, "", "", ""⟩, ⟨2, "u1", "2024-01-06", 7, "Food", "", ""⟩], 3⟩
        "2024-01-01" "2024-12-31" "k1" (some "")
      = summarize
        ⟨[⟨"u1", "k1", "a@b.co", "n", "h", "s", "t", none⟩],
         [⟨1, "u1", "2024-01-05", 5, "", "", ""⟩, ⟨2, "u1", "2024-01-06", 7, "Food", "", ""⟩], 3⟩
        "2024-01-01" "2024-12-31" "k1" none
    ∧ (Expense.mk 2 "u1" "2024-01-06" 7 "Food" "" "").category ≠ "" :=
  summarize_empty_category_filter
    ⟨[⟨"u1", "k1", "a@b.co", "n", "h", "s", "t", none⟩],
     [⟨1, "u1", "2024-01-05", 5, "", "", ""⟩, ⟨2, "u1", "2024-01-06", 7, "Food", "", ""⟩], 3⟩
    "2024-01-01" "2024-12-31" "k1" "u1" "Food"
    ⟨2, "u1", "2024-01-06", 7, "Food", "", ""⟩ (by decide) (by decide)

/-- C6 counterexample: the email `"@x.com"` has an empty local part, yet
`register_user` accepts it, because the code only checks that `'@'` occurs
somewhere and that a `'.'` occurs after the last `'@'`. -/
theorem register_empty_local_part_succeeds :
    (register_user ⟨[], [], 1⟩ "@x.com" "n" "p" "u1" "k1" "s1" "t1" concatHash).1
      = RegisterResp.success "k1" "u1" "n" "@x.com" := by decide

/-- C6 amended: `register_user` fails with the `InvalidEmail` error exactly
when the email lacks an `'@'` or lacks a `'.'` in the segment after the last
`'@'` (the local part may be empty), leaving the store unchanged; when that
check passes, the result is never the email-format error. -/
theorem register_email_format_check (st : DB) (email n p uid key salt t : String)
    (hashPassword : String → String → String) :
    (emailFormatOk email = false →
      register_user st email n p uid key salt t hashPassword
        = (RegisterResp.error "Invalid email format.", st)) ∧
    (emailFormatOk email = true →
      (register_user st email n p uid key salt t hashPassword).1
        ≠ RegisterResp.error "Invalid email format.") := by
  constructor
  · intro h
    simp [register_user, h]
  · intro h
    by_cases hdup : st.users.any (fun u => lowerStr u.email == lowerStr email) = true
    · have hres : (register_user st email n p uid key salt t hashPassword).1
          = RegisterResp.error
              "This email is already registered. Use regenerate_api_key if you lost your key." := by
        simp [register_user, h, hdup]
      rw [hres]
      decide
    · have hres : (register_user st email n p uid key salt t hashPassword).1
          = RegisterResp.success key uid n (lowerStr email) := by
        simp [register_user, h, hdup]
      rw [hres]
      simp

/-- Witness for `register_email_format_check`: a malformed email is rejected
with the format error and the state is unchanged, while a well-formed one is
not rejected for format reasons. -/
theorem register_email_format_check_witness :
    register_user ⟨[], [], 1⟩ "plainaddress" "n" "p" "u1" "k1" "s1" "t1" concatHash
        = (RegisterResp.error "Invalid email format.", ⟨[], [], 1⟩)
    ∧ (register_user ⟨[], [], 1⟩ "a@b.co" "n" "p" "u1" "k1" "s1" "t1" concatHash).1
        ≠ RegisterResp.error "Invalid email format." :=
  ⟨(register_email_format_check ⟨[], [], 1⟩ "plainaddress" "n" "p" "u1" "k1" "s1" "t1"
      concatHash).1 (by decide),
   (register_email_format_check ⟨[], [], 1⟩ "a@b.co" "n" "p" "u1" "k1" "s1" "t1"
      concatHash).2 (by decide)⟩

/-- C9: `register_user` stores and returns the lowercased form of the
supplied email: on success, both the response's `email` field and the
appended `users` row carry `email.lower()`, whatever casing the caller
used. -/
theorem register_lowercases_email (st : DB) (email n p uid key salt t : String)
    (hashPassword : String → String → String)
    (hok : emailFormatOk email = true)
    (hfresh : ∀ u ∈ st.users, lowerStr u.email ≠ lowerStr email) :
    (register_user st email n p uid key salt t hashPassword).1
        = RegisterResp.success key uid n (lowerStr email) ∧
    (register_user st email n p uid key salt t hashPassword).2.users
        = st.users ++ [⟨uid, key, lowerStr email, n, hashPassword p salt, salt, t, none⟩] := by
  have hdup : st.users.any (fun u => lowerStr u.email == lowerStr email) = false := by
    cases h : st.users.any (fun u => lowerStr u.email == lowerStr email) with
    | false => rfl
    | true =>
      exfalso
      obtain ⟨u, hu, hp⟩ := List.any_eq_true.mp h
      exact hfresh u hu (by simpa using hp)
  constructor
  · simp [register_user, hok, hdup]
  · simp [register_user, hok, hdup]

/-- Witness for `register_lowercases_email`: registering with the
mixed-case `"Alice@Example.COM"` stores and returns
`"alice@example.com"`. -/
theorem register_lowercases_email_witness :
    lowerStr "Alice@Example.COM" = "alice@example.com"
    ∧ (register_user ⟨[], [], 1⟩ "Alice@Example.COM" "Alice" "pw" "u1" "k1" "s1" "t1"
        concatHash).1
        = RegisterResp.success "k1" "u1" "Alice" (lowerStr "Alice@Example.COM")
    ∧ (register_user ⟨[], [], 1⟩ "Alice@Example.COM" "Alice" "pw" "u1" "k1" "s1" "t1"
        concatHash).2.users
        = [⟨"u1", "k1", lowerStr "Alice@Example.COM", "Alice", concatHash "pw" "s1", "s1",
            "t1", none⟩] :=
  ⟨by decide,
   (register_lowercases_email ⟨[], [], 1⟩ "Alice@Example.COM" "Alice" "pw" "u1" "k1" "s1" "t1"
      concatHash (by decide) (by intro u hu; cases hu)).1,
   (register_lowercases_email ⟨[], [], 1⟩ "Alice@Example.COM" "Alice" "pw" "u1" "k1" "s1" "t1"
      concatHash (by decide) (by intro u hu; cases hu)).2⟩

/-- C7: for every account and date range, `list_expenses` returns exactly the
account's expenses whose date lies in the inclusive range, ordered descending
by date and, within equal dates, descending by `expense_id`. -/
theorem list_expenses_range_and_order (st : DB) (key uid start_date end_date : String)
    (hauth : authenticate st key = Except.ok uid)
    (hids : (st.expenses.map (fun x => x.id)).Nodup) :
    ∃ r : ListResp,
      list_expenses st start_date end_date key = ToolResult.ok r ∧
      r.count = r.expenses.length ∧
      (∀ x, x ∈ r.expenses ↔ x ∈ st.expenses ∧ x.user_id = uid
          ∧ strLeB start_date x.date = true ∧ strLeB x.date end_date = true) ∧
      r.expenses.Pairwise listedBefore := by
  refine ⟨⟨(sortRows (rangeRows st uid start_date end_date)).length,
           sortRows (rangeRows st uid start_date end_date)⟩, ?_, rfl, ?_, ?_⟩
  · simp [list_expenses, hauth]
  · intro x
    rw [mem_sortRows, mem_rangeRows]
  · have hsorted : List.Pairwise newestFirst
        (sortRows (rangeRows st uid start_date end_date)) :=
      List.sorted_insertionSort newestFirst (rangeRows st uid start_date end_date)
    have hperm : List.Perm (sortRows (rangeRows st uid start_date end_date))
        (rangeRows st uid start_date end_date) :=
      List.perm_insertionSort newestFirst (rangeRows st uid start_date end_date)
    have hidsf : List.Pairwise (fun a b : Expense => a.id ≠ b.id)
        (rangeRows st uid start_date end_date) := by
      have hsub : ((rangeRows st uid start_date end_date).map (fun x => x.id)).Sublist
          (st.expenses.map (fun x => x.id)) :=
        (List.filter_sublist st.expenses).map (fun x => x.id)
      exact List.pairwise_map.mp (hids.sublist hsub)
    have hids2 : List.Pairwise (fun a b : Expense => a.id ≠ b.id)
        (sortRows (rangeRows st uid start_date end_date)) :=
      (hperm.pairwise_iff (fun h heq => h heq.symm)).mpr hidsf
    refine (hsorted.and hids2).imp ?_
    intro a b hab
    rcases hab.1 with h | ⟨hd, hi⟩
    · exact Or.inl h
    · exact Or.inr ⟨hd.symm, lt_of_le_of_ne hi (fun h => hab.2 (h ▸ rfl))⟩

/-- Witness for `list_expenses_range_and_order` at a two-expense state. -/
theorem list_expenses_range_and_order_witness :
    ∃ r : ListResp,
      list_expenses
          ⟨[⟨"u1", "k1", "a@b.co", "n", "h", "s", "t", none⟩],
           [⟨1, "u1", "2024-01-05", 5, "Food", "", ""⟩,
            ⟨2, "u1", "2024-01-10", 7, "Travel", "", ""⟩], 3⟩
          "2024-01-01" "2024-01-31" "k1" = ToolResult.ok r ∧
      r.count = r.expenses.length ∧
      (∀ x, x ∈ r.expenses ↔ x ∈
          [⟨1, "u1", "2024-01-05", 5, "Food", "", ""⟩,
           ⟨2, "u1", "2024-01-10", 7, "Travel", "", ""⟩] ∧ x.user_id = "u1"
          ∧ strLeB "2024-01-01" x.date = true ∧ strLeB x.date "2024-01-31" = true) ∧
      r.expenses.Pairwise listedBefore :=
  list_expenses_range_and_order
    ⟨[⟨"u1", "k1", "a@b.co", "n", "h", "s", "t", none⟩],
     [⟨1, "u1", "2024-01-05", 5, "Food", "", ""⟩,
      ⟨2, "u1", "2024-01-10", 7, "Travel", "", ""⟩], 3⟩
    "k1" "u1" "2024-01-01" "2024-01-31" rfl (by decide)

theorem sum_summaryOf (rows : List Expense) :
    ((summaryOf rows).map (fun g => g.total_amount)).sum
      = (rows.map (fun x => x.amount)).sum := by
  have hperm : List.Perm (summaryOf rows) ((distinctCats rows).map (groupFor rows)) :=
    List.perm_insertionSort totalDesc ((distinctCats rows).map (groupFor rows))
  rw [(hperm.map (fun g => g.total_amount)).sum_eq, List.map_map]
  have hcov : ∀ x ∈ rows, x.category ∈ distinctCats rows := by
    intro x hx
    exact List.mem_dedup.mpr (List.mem_map_of_mem (fun y => y.category) hx)
  exact sum_over_cats (distinctCats rows) (List.nodup_dedup _) rows hcov

/-- C3: for every account and date range, the `total_amount` returned by
`summarize` with no category filter equals the sum of the `amount` fields of
exactly the rows returned by `list_expenses` for the same account and range,
and also equals the sum of the per-category totals in the breakdown. -/
theorem summarize_total_equals_sum (st : DB) (key uid start_date end_date : String)
    (hauth : authenticate st key = Except.ok uid) :
    ∃ (lr : ListResp) (sr : SummResp),
      list_expenses st start_date end_date key = ToolResult.ok lr ∧
      summarize st start_date end_date key none = ToolResult.ok sr ∧
      sr.total_amount = (lr.expenses.map (fun x => x.amount)).sum ∧
      sr.total_amount = (sr.summary.map (fun g => g.total_amount)).sum := by
  refine ⟨⟨(sortRows (rangeRows st uid start_date end_date)).length,
           sortRows (rangeRows st uid start_date end_date)⟩,
          ⟨((summaryOf (rangeRows st uid start_date end_date)).map
              (fun g => g.total_amount)).sum,
           summaryOf (rangeRows st uid start_date end_date)⟩, ?_, ?_, ?_, rfl⟩
  · simp [list_expenses, hauth]
  · simp [summarize, hauth, summarizeRows]
  · have hperm : List.Perm (sortRows (rangeRows st uid start_date end_date))
        (rangeRows st uid start_date end_date) :=
      List.perm_insertionSort newestFirst (rangeRows st uid start_date end_date)
    rw [sum_summaryOf, (hperm.map (fun x => x.amount)).sum_eq]

/-- Witness for `summarize_total_equals_sum` at a two-expense state. -/
theorem summarize_total_equals_sum_witness :
    ∃ (lr : ListResp) (sr : SummResp),
      list_expenses
          ⟨[⟨"u1", "k1", "a@b.co", "n", "h", "s", "t", none⟩],
           [⟨1, "u1", "2024-01-05", 5, "Food", "", ""⟩,
            ⟨2, "u1", "2024-01-10", 7, "Travel", "", ""⟩], 3⟩
          "2024-01-01" "2024-01-31" "k1" = ToolResult.ok lr ∧
      summarize
          ⟨[⟨"u1", "k1", "a@b.co", "n", "h", "s", "t", none⟩],
           [⟨1, "u1", "2024-01-05", 5, "Food", "", ""⟩,
            ⟨2, "u1", "2024-01-10", 7, "Travel", "", ""⟩], 3⟩
          "2024-01-01" "2024-01-31" "k1" none = ToolResult.ok sr ∧
      sr.total_amount = (lr.expenses.map (fun x => x.amount)).sum ∧
      sr.total_amount = (sr.summary.map (fun g => g.total_amount)).sum :=
  summarize_total_equals_sum
    ⟨[⟨"u1", "k1", "a@b.co", "n", "h", "s", "t", none⟩],
     [⟨1, "u1", "2024-01-05", 5, "Food", "", ""⟩,
      ⟨2, "u1", "2024-01-10", 7, "Travel", "", ""⟩], 3⟩
    "k1" "u1" "2024-01-01" "2024-01-31" rfl

/-- C1: tenant isolation.  An expense owned by one account is never returned
by `list_expenses` under another account's credentials, and `delete_expense`
under those credentials fails with the `NotFoundOrNotOwned` message while
leaving the state (hence the expense) untouched. -/
theorem tenant_isolation (st : DB) (keyB uidB : String)
    (hauth : authenticate st keyB = Except.ok uidB)
    (eA : Expense) (hA : eA ∈ st.expenses) (hneq : eA.user_id ≠ uidB)
    (hids : (st.expenses.map (fun x => x.id)).Nodup) :
    (∀ start_date end_date r, list_expenses st start_date end_date keyB = ToolResult.ok r →
        eA ∉ r.expenses) ∧
    delete_expense st eA.id keyB
      = ToolResult.ok (DeleteResp.error "Expense not found or not yours.", st) := by
  constructor
  · intro start_date end_date r hr
    have hr' : ToolResult.ok (α := ListResp)
        ⟨(sortRows (rangeRows st uidB start_date end_date)).length,
         sortRows (rangeRows st uidB start_date end_date)⟩ = ToolResult.ok r := by
      rw [← hr]
      simp [list_expenses, hauth]
    have hrr : r.expenses = sortRows (rangeRows st uidB start_date end_date) := by
      cases hr'
      rfl
    rw [hrr, mem_sortRows, mem_rangeRows]
    intro hcontra
    exact hneq hcontra.2.1
  · have hany : st.expenses.any (fun x => x.id == eA.id && x.user_id == uidB) = false := by
      cases h : st.expenses.any (fun x => x.id == eA.id && x.user_id == uidB) with
      | false => rfl
      | true =>
        exfalso
        obtain ⟨x, hx, hp⟩ := List.any_eq_true.mp h
        rw [Bool.and_eq_true, beq_iff_eq, beq_iff_eq] at hp
        have hxe : x = eA :=
          List.inj_on_of_nodup_map hids hx hA hp.1
        exact hneq (hxe ▸ hp.2)
    simp [delete_expense, hauth, hany]

/-- Witness for `tenant_isolation`: account `u2` can neither list nor delete
account `u1`'s expense. -/
theorem tenant_isolation_witness :
    (∀ start_date end_date r,
      list_expenses
          ⟨[⟨"u1", "k1", "a@b.co", "n", "h", "s", "t", none⟩,
            ⟨"u2", "k2", "c@d.co", "m", "h", "s", "t", none⟩],
           [⟨1, "u1", "2024-01-05", 5, "Food", "", ""⟩], 2⟩
          start_date end_date "k2" = ToolResult.ok r →
        (Expense.mk 1 "u1" "2024-01-05" 5 "Food" "" "") ∉ r.expenses) ∧
    delete_expense
        ⟨[⟨"u1", "k1", "a@b.co", "n", "h", "s", "t", none⟩,
          ⟨"u2", "k2", "c@d.co", "m", "h", "s", "t", none⟩],
         [⟨1, "u1", "2024-01-05", 5, "Food", "", ""⟩], 2⟩
        1 "k2"
      = ToolResult.ok (DeleteResp.error "Expense not found or not yours.",
          ⟨[⟨"u1", "k1", "a@b.co", "n", "h", "s", "t", none⟩,
            ⟨"u2", "k2", "c@d.co", "m", "h", "s", "t", none⟩],
           [⟨1, "u1", "2024-01-05", 5, "Food", "", ""⟩], 2⟩) :=
  tenant_isolation
    ⟨[⟨"u1", "k1", "a@b.co", "n", "h", "s", "t", none⟩,
      ⟨"u2", "k2", "c@d.co", "m", "h", "s", "t", none⟩],
     [⟨1, "u1", "2024-01-05", 5, "Food", "", ""⟩], 2⟩
    "k2" "u2" rfl ⟨1, "u1", "2024-01-05", 5, "Food", "", ""⟩
    (List.Mem.head _) (by decide) (by decide)

theorem register_success_eq (st : DB) (email n p uid key salt t : String)
    (hashPassword : String → String → String)
    (hok : emailFormatOk email = true)
    (hfresh : ∀ u ∈ st.users, lowerStr u.email ≠ lowerStr email) :
    register_user st email n p uid key salt t hashPassword
      = (RegisterResp.success key uid n (lowerStr email),
         ⟨st.users ++ [⟨uid, key, lowerStr email, n, hashPassword p salt, salt, t, none⟩],
          st.expenses, st.nextExpenseId⟩) := by
  have hdup : st.users.any (fun u => lowerStr u.email == lowerStr email) = false := by
    cases h : st.users.any (fun u => lowerStr u.email == lowerStr email) with
    | false => rfl
    | true =>
      exfalso
      obtain ⟨u, hu, hp⟩ := List.any_eq_true.mp h
      exact hfresh u hu (by simpa using hp)
  simp [register_user, hok, hdup]

/-- C5 counterexample: two register calls with the same (malformed) email can
both fail, so it is not the case that for every such pair exactly one
succeeds while the other fails with the duplicate-email error. -/
theorem register_twice_counterexample :
    (register_user ⟨[], [], 1⟩ "not-an-email" "n" "p" "u1" "k1" "s1" "t1" concatHash).1
        = RegisterResp.error "Invalid email format."
    ∧ (register_user (register_user ⟨[], [], 1⟩ "not-an-email" "n" "p" "u1" "k1" "s1" "t1"
          concatHash).2 "not-an-email" "n" "p" "u2" "k2" "s2" "t2" concatHash).1
        = RegisterResp.error "Invalid email format." := by decide

/-- C5 amended: for a pair of register calls whose emails are well-formed and
equal up to letter case, starting from a state where that email is not yet
registered case-insensitively, the first call succeeds and the second fails
with the duplicate-email error, leaving the account store unchanged. -/
theorem register_twice_amended (st : DB)
    (e1 e2 n1 n2 p1 p2 uid1 key1 salt1 t1 uid2 key2 salt2 t2 : String)
    (hashPassword : String → String → String)
    (hf1 : emailFormatOk e1 = true) (hf2 : emailFormatOk e2 = true)
    (hcase : lowerStr e1 = lowerStr e2)
    (hfresh : ∀ u ∈ st.users, lowerStr u.email ≠ lowerStr e1) :
    (register_user st e1 n1 p1 uid1 key1 salt1 t1 hashPassword).1.isSuccess = true
    ∧ (register_user (register_user st e1 n1 p1 uid1 key1 salt1 t1 hashPassword).2
          e2 n2 p2 uid2 key2 salt2 t2 hashPassword).1
        = RegisterResp.error
            "This email is already registered. Use regenerate_api_key if you lost your key."
    ∧ (register_user (register_user st e1 n1 p1 uid1 key1 salt1 t1 hashPassword).2
          e2 n2 p2 uid2 key2 salt2 t2 hashPassword).2
        = (register_user st e1 n1 p1 uid1 key1 salt1 t1 hashPassword).2 := by
  have h1 := register_success_eq st e1 n1 p1 uid1 key1 salt1 t1 hashPassword hf1 hfresh
  have hdup2 : (register_user st e1 n1 p1 uid1 key1 salt1 t1 hashPassword).2.users.any
      (fun u => lowerStr u.email == lowerStr e2) = true := by
    rw [h1]
    apply List.any_eq_true.mpr
    refine ⟨⟨uid1, key1, lowerStr e1, n1, hashPassword p1 salt1, salt1, t1, none⟩,
      List.mem_append_right _ (List.Mem.head _), ?_⟩
    show (lowerStr (lowerStr e1) == lowerStr e2) = true
    rw [lowerStr_idem, hcase]
    exact beq_self_eq_true _
  have h2 : ∀ st1 : DB,
      st1.users.any (fun u => lowerStr u.email == lowerStr e2) = true →
      register_user st1 e2 n2 p2 uid2 key2 salt2 t2 hashPassword
        = (RegisterResp.error
            "This email is already registered. Use regenerate_api_key if you lost your key.",
           st1) := by
    intro st1 hd
    obtain ⟨x, hx, hbx⟩ := List.any_eq_true.mp hd
    have hex : ∃ x ∈ st1.users, lowerStr x.email = lowerStr e2 := ⟨x, hx, by simpa using hbx⟩
    simp [register_user, hf2, hex]
  refine ⟨?_, ?_, ?_⟩
  · rw [h1]
    rfl
  · rw [h2 _ hdup2]
  · rw [h2 _ hdup2]

/-- Witness for `register_twice_amended`: registering `"Bob@Mail.com"` and
then `"bob@mail.COM"` on a fresh store. -/
theorem register_twice_amended_witness :
    (register_user ⟨[], [], 1⟩ "Bob@Mail.com" "B" "p1" "u1" "k1" "s1" "t1" concatHash).1.isSuccess
        = true
    ∧ (register_user (register_user ⟨[], [], 1⟩ "Bob@Mail.com" "B" "p1" "u1" "k1" "s1" "t1"
          concatHash).2 "bob@mail.COM" "B2" "p2" "u2" "k2" "s2" "t2" concatHash).1
        = RegisterResp.error
            "This email is already registered. Use regenerate_api_key if you lost your key."
    ∧ (register_user (register_user ⟨[], [], 1⟩ "Bob@Mail.com" "B" "p1" "u1" "k1" "s1" "t1"
          concatHash).2 "bob@mail.COM" "B2" "p2" "u2" "k2" "s2" "t2" concatHash).2
        = (register_user ⟨[], [], 1⟩ "Bob@Mail.com" "B" "p1" "u1" "k1" "s1" "t1" concatHash).2 :=
  register_twice_amended ⟨[], [], 1⟩ "Bob@Mail.com" "bob@mail.COM" "B" "B2" "p1" "p2"
    "u1" "k1" "s1" "t1" "u2" "k2" "s2" "t2" concatHash
    (by decide) (by decide) (by decide) (by intro u hu; cases hu)

/-- C2: for a registered account, `_authenticate` with its current `api_key`
returns that account's id; after a successful `regenerate_api_key`, the old
key fails `_authenticate` while the newly returned key succeeds and yields
the same account id.  The uniqueness hypotheses mirror the `UNIQUE`
constraints of the `users` table and the freshness of
`secrets.token_urlsafe`. -/
theorem authenticate_and_rotate_key (st : DB) (u : User) (hu : u ∈ st.users)
    (hkey : u.api_key ≠ "")
    (hkeys : (st.users.map (fun v => v.api_key)).Nodup)
    (huids : (st.users.map (fun v => v.user_id)).Nodup)
    (hemails : (st.users.map (fun v => lowerStr v.email)).Nodup)
    (email password newKey now : String) (hashPassword : String → String → String)
    (hemail : lowerStr email = lowerStr u.email)
    (hpw : hashPassword password u.salt = u.password_hash)
    (hnew : newKey ≠ "") (hfresh : ∀ v ∈ st.users, v.api_key ≠ newKey) :
    authenticate st u.api_key = Except.ok u.user_id
    ∧ (regenerate_api_key st email password newKey now hashPassword).1
        = RegenResp.success newKey u.user_id
    ∧ authenticate (regenerate_api_key st email password newKey now hashPassword).2 u.api_key
        = Except.error "Invalid API key"
    ∧ authenticate (regenerate_api_key st email password newKey now hashPassword).2 newKey
        = Except.ok u.user_id := by
  have hfind1 : st.users.find? (fun v => v.api_key == u.api_key) = some u := by
    refine find?_eq_of_unique hu ?_ ?_
    · exact beq_self_eq_true _
    · intro x hx hpx
      exact List.inj_on_of_nodup_map hkeys hx hu (by simpa using hpx)
  have hauth1 : authenticate st u.api_key = Except.ok u.user_id := by
    simp [authenticate, hkey, hfind1]
  have hfind2 : st.users.find? (fun v => lowerStr v.email == lowerStr email) = some u := by
    refine find?_eq_of_unique hu ?_ ?_
    · rw [hemail]
      exact beq_self_eq_true _
    · intro x hx hpx
      have hx2 : lowerStr x.email = lowerStr u.email := by
        have hx1 : lowerStr x.email = lowerStr email := by simpa using hpx
        rw [hx1, hemail]
      exact List.inj_on_of_nodup_map hemails hx hu hx2
  have hb : (hashPassword password u.salt != u.password_hash) = false := by
    rw [hpw]
    simp
  have hst2 : (regenerate_api_key st email password newKey now hashPassword).2
      = ⟨st.users.map (fun v =>
            if v.user_id == u.user_id then
              { v with api_key := newKey, api_key_regen_at := some now }
            else v),
         st.expenses, st.nextExpenseId⟩ := by
    simp [regenerate_api_key, hfind2, hb]
  have hmapped : ∀ v ∈ st.users.map (fun v =>
      if v.user_id == u.user_id then
        { v with api_key := newKey, api_key_regen_at := some now }
      else v), (v.api_key == u.api_key) = false := by
    intro v hv
    obtain ⟨w, hw, rfl⟩ := List.mem_map.mp hv
    by_cases hid : (w.user_id == u.user_id) = true
    · rw [if_pos hid]
      have hne : newKey ≠ u.api_key := fun h => hfresh u hu h.symm
      simpa using hne
    · rw [if_neg hid]
      cases hbeq : (w.api_key == u.api_key) with
      | false => rfl
      | true =>
        exfalso
        have hw_eq : w = u := List.inj_on_of_nodup_map hkeys hw hu (by simpa using hbeq)
        exact hid (by rw [hw_eq]; exact beq_self_eq_true _)
  have hnone : (st.users.map (fun v =>
      if v.user_id == u.user_id then
        { v with api_key := newKey, api_key_regen_at := some now }
      else v)).find? (fun v => v.api_key == u.api_key) = none := by
    apply List.find?_eq_none.mpr
    intro v hv hcontra
    rw [hmapped v hv] at hcontra
    exact Bool.false_ne_true hcontra
  have hgu : (fun v : User =>
      if v.user_id == u.user_id then
        { v with api_key := newKey, api_key_regen_at := some now }
      else v) u = { u with api_key := newKey, api_key_regen_at := some now } := by
    simp
  have hfind3 : (st.users.map (fun v =>
      if v.user_id == u.user_id then
        { v with api_key := newKey, api_key_regen_at := some now }
      else v)).find? (fun v => v.api_key == newKey)
      = some { u with api_key := newKey, api_key_regen_at := some now } := by
    refine find?_eq_of_unique (hgu ▸ List.mem_map_of_mem _ hu) ?_ ?_
    · exact beq_self_eq_true _
    · intro x hx hpx
      obtain ⟨w, hw, rfl⟩ := List.mem_map.mp hx
      by_cases hid : (w.user_id == u.user_id) = true
      · have hw_eq : w = u := List.inj_on_of_nodup_map huids hw hu (by simpa using hid)
        rw [hw_eq]
        simp
      · exfalso
        rw [if_neg hid] at hpx
        exact hfresh w hw (by simpa using hpx)
  refine ⟨hauth1, ?_, ?_, ?_⟩
  · simp [regenerate_api_key, hfind2, hb]
  · rw [hst2]
    unfold authenticate
    rw [if_neg hkey, hnone]
  · rw [hst2]
    unfold authenticate
    rw [if_neg hnew, hfind3]

/-- Witness for `authenticate_and_rotate_key` at a one-account state, rotated
through the case-variant email `"ALICE@example.com"`. -/
theorem authenticate_and_rotate_key_witness :
    authenticate ⟨[⟨"uA", "keyA", "alice@example.com", "Alice", "pwsA", "sA", "t0", none⟩], [], 1⟩
        "keyA" = Except.ok "uA"
    ∧ (regenerate_api_key
          ⟨[⟨"uA", "keyA", "alice@example.com", "Alice", "pwsA", "sA", "t0", none⟩], [], 1⟩
          "ALICE@example.com" "pw" "newK" "t9" concatHash).1
        = RegenResp.success "newK" "uA"
    ∧ authenticate (regenerate_api_key
          ⟨[⟨"uA", "keyA", "alice@example.com", "Alice", "pwsA", "sA", "t0", none⟩], [], 1⟩
          "ALICE@example.com" "pw" "newK" "t9" concatHash).2 "keyA"
        = Except.error "Invalid API key"
    ∧ authenticate (regenerate_api_key
          ⟨[⟨"uA", "keyA", "alice@example.com", "Alice", "pwsA", "sA", "t0", none⟩], [], 1⟩
          "ALICE@example.com" "pw" "newK" "t9" concatHash).2 "newK"
        = Except.ok "uA" :=
  authenticate_and_rotate_key
    ⟨[⟨"uA", "keyA", "alice@example.com", "Alice", "pwsA", "sA", "t0", none⟩], [], 1⟩
    ⟨"uA", "keyA", "alice@example.com", "Alice", "pwsA", "sA", "t0", none⟩
    (List.Mem.head _) (by decide) (by decide) (by decide) (by decide)
    "ALICE@example.com" "pw" "newK" "t9" concatHash
    (by decide) (by decide) (by decide) (by decide)
